import Mathlib

/-!
Verification of the character-sheet text parser (`src/parser.py`) of the
cypher_sheet_creator repository.  The Python parser is shallowly embedded:
each method of `CharacterSheetParser` becomes a Lean function over lists of
strings, and the regular expressions it uses are rendered as explicit
backtracking matchers with the same leftmost / greedy / non-greedy
semantics as Python's `re.match` / `re.search` on the patterns involved.
-/

namespace CypherSheet

/-- Python's whitespace class `\s` / `str.strip` set, restricted to ASCII
(space, tab, newline, carriage return, form feed, vertical tab). -/
def pyIsSpace (c : Char) : Bool :=
  c = ' ' || c = '\t' || c = '\n' || c = '\x0d' || c = '\x0c' || c = '\x0b'

/-- `str.startswith` over character lists (the library version does not
reduce in the kernel). -/
def sStartsWith (s pat : String) : Bool := pat.toList.isPrefixOf s.toList

/-- `str.endswith` over character lists. -/
def sEndsWith (s pat : String) : Bool := pat.toList.isSuffixOf s.toList

/-- Emptiness over character lists. -/
def sIsEmpty (s : String) : Bool := s.toList.isEmpty

/-- `len` over character lists. -/
def sLength (s : String) : Nat := s.toList.length

/-- `" ".join` over character lists. -/
def sJoinSpace (xs : List String) : String :=
  String.mk (List.intercalate [' '] (xs.map String.toList))

/-- Python `text.split("\n")` over character lists. -/
def splitLines (s : String) : List String :=
  (s.toList.splitOnP (· = '\n')).map String.mk

/-- Python `str.strip()`. -/
def pyStrip (s : String) : String :=
  String.mk (((s.toList.dropWhile pyIsSpace).reverse.dropWhile pyIsSpace).reverse)

/-- Python `str.rstrip()`. -/
def pyRStrip (s : String) : String :=
  String.mk ((s.toList.reverse.dropWhile pyIsSpace).reverse)

/-- Python `str.lower()` (ASCII). -/
def pyLower (s : String) : String :=
  String.mk (s.toList.map Char.toLower)

/-- `set(t) == {"-"}` in the source: a non-empty string made purely of dashes. -/
def isPureDash (s : String) : Bool :=
  !sIsEmpty s && s.toList.all (· = '-')

/-- `line.strip().lower()`, the normal form used for section-header comparison. -/
def foldLine (l : String) : String := pyLower (pyStrip l)

/-- Python `str.split()` with no argument: split on whitespace runs, dropping
empty pieces. -/
def pyWords (s : String) : List String :=
  ((s.toList.splitOnP pyIsSpace).map String.mk).filter (fun w => !sIsEmpty w)

/-- Python `str.title()`: a cased (alphabetic) character is uppercased when the
previous character is not alphabetic and lowercased otherwise. -/
def pyTitleGo : Bool → List Char → List Char
  | _, [] => []
  | prevAlpha, c :: t =>
    if c.isAlpha then
      (if prevAlpha then c.toLower else c.toUpper) :: pyTitleGo true t
    else c :: pyTitleGo false t

/-- Python `str.title()`. -/
def pyTitle (s : String) : String := String.mk (pyTitleGo false s.toList)

/-- Python word-character class `\w` (ASCII): letters, digits, underscore. -/
def wordChar (c : Char) : Bool := c.isAlphanum || c = '_'

/-- Does `s` contain `pat` as a substring (Python `pat in s`)? -/
def hasSubstr (s pat : String) : Bool :=
  let rec go : List Char → Bool
    | [] => pat.toList.isPrefixOf []
    | c :: t => pat.toList.isPrefixOf (c :: t) || go t
  go s.toList

/-- Try alternatives in priority order, returning the first success
(backtracking combinator). -/
def firstSome : List α → (α → Option β) → Option β
  | [], _ => none
  | a :: t, f =>
    match f a with
    | some b => some b
    | none => firstSome t f

/-- The remainders after `\s+` consumes a non-empty whitespace run, in greedy
priority order (longest consumed first).  Empty when no leading whitespace. -/
def wsSplits (cs : List Char) : List (List Char) :=
  let k := (cs.takeWhile pyIsSpace).length
  (List.range k).map (fun j => cs.drop (k - j))

/-- Consume a literal case-insensitively, returning the remainder. -/
def litCI : List Char → List Char → Option (List Char)
  | [], cs => some cs
  | _ :: _, [] => none
  | p :: ps, c :: cs =>
    if p.toLower = c.toLower then litCI ps cs else none

/-- Consume a literal case-sensitively, returning the remainder. -/
def litCS : List Char → List Char → Option (List Char)
  | [], cs => some cs
  | _ :: _, [] => none
  | p :: ps, c :: cs =>
    if p = c then litCS ps cs else none

/-! ### Header regex

`re.match(r"^(.+?)\s+is\s+(?:a|an)\s+(.+?)(?:\s+in\s+(?:a|an)\s+(.+?))?$", text, re.IGNORECASE)`
rendered with the engine's backtracking order: group 1 and group 2 are
non-greedy (shortest first), `\s+` is greedy (longest first), the `a|an`
alternation tries `a` first, and the optional world clause is tried present
before absent. -/

/-- Match `\s+in\s+(?:a|an)\s+(.+?)$` against `cs`; returns group 3. -/
def hmWorld (cs : List Char) : Option String :=
  firstSome (wsSplits cs) fun r1 =>
  match litCI ['i', 'n'] r1 with
  | none => none
  | some r2 =>
    firstSome (wsSplits r2) fun r3 =>
      let finish := fun (r4 : List Char) =>
        firstSome (wsSplits r4) fun r5 =>
          if r5.isEmpty then none
          else if r5.any (· = '\n') then none
          else some (String.mk r5)
      match litCI ['a'] r3 with
      | some r4 =>
        match finish r4 with
        | some g3 => some g3
        | none =>
          match litCI ['a', 'n'] r3 with
          | some r4n => finish r4n
          | none => none
      | none =>
        match litCI ['a', 'n'] r3 with
        | some r4n => finish r4n
        | none => none

/-- Match `(.+?)(?:\s+in\s+(?:a|an)\s+(.+?))?$`: expand group 2 one character
at a time (non-greedy); at each stop try the world clause, then `$`. -/
def hmG2Go : List Char → List Char → Option (String × Option String)
  | _, [] => none
  | acc, c :: t =>
    if c = '\n' then none
    else
      match hmWorld t with
      | some g3 => some (String.mk (acc.reverse ++ [c]), some g3)
      | none =>
        if t.isEmpty then some (String.mk (acc.reverse ++ [c]), none)
        else hmG2Go (c :: acc) t

/-- Match `\s+is\s+(?:a|an)\s+` then the group-2 part. -/
def hmAfterName (cs : List Char) : Option (String × Option String) :=
  firstSome (wsSplits cs) fun r1 =>
  match litCI ['i', 's'] r1 with
  | none => none
  | some r2 =>
    firstSome (wsSplits r2) fun r3 =>
      match litCI ['a'] r3 with
      | some r4 =>
        match firstSome (wsSplits r4) (hmG2Go []) with
        | some res => some res
        | none =>
          match litCI ['a', 'n'] r3 with
          | some r4n => firstSome (wsSplits r4n) (hmG2Go [])
          | none => none
      | none =>
        match litCI ['a', 'n'] r3 with
        | some r4n => firstSome (wsSplits r4n) (hmG2Go [])
        | none => none

/-- Expand group 1 one character at a time (non-greedy), testing the rest of
the pattern after each extension. -/
def hmGo : List Char → List Char → Option (String × String × Option String)
  | _, [] => none
  | acc, c :: t =>
    if c = '\n' then none
    else
      match hmAfterName t with
      | some (g2, g3) => some (String.mk (acc.reverse ++ [c]), g2, g3)
      | none => hmGo (c :: acc) t

/-- The full header regex: groups (name, descriptor clause, optional world). -/
def headerMatch (s : String) : Option (String × String × Option String) :=
  hmGo [] s.toList

/-! ### Descriptor split

`re.split(r"\s+who\s+|\s+with\s+", text, flags=re.IGNORECASE)`. -/

/-- If the split pattern matches at the head of `cs`, return the match length
(leading and trailing whitespace runs are forced maximal because they abut
the literal). -/
def sepAt (cs : List Char) : Option Nat :=
  let k := (cs.takeWhile pyIsSpace).length
  if k = 0 then none
  else
    let r := cs.drop k
    let who :=
      match litCI ['w', 'h', 'o'] r with
      | some r2 =>
        let m := (r2.takeWhile pyIsSpace).length
        if m = 0 then none else some (k + 3 + m)
      | none => none
    match who with
    | some n => some n
    | none =>
      match litCI ['w', 'i', 't', 'h'] r with
      | some r2 =>
        let m := (r2.takeWhile pyIsSpace).length
        if m = 0 then none else some (k + 4 + m)
      | none => none

/-- Fueled scan: emit a piece at each separator occurrence, left to right. -/
def splitDescAux : Nat → List Char → List Char → List String
  | 0, rest, curr => [String.mk (curr.reverse ++ rest)]
  | fuel + 1, cs, curr =>
    match cs with
    | [] => [String.mk curr.reverse]
    | c :: t =>
      match sepAt (c :: t) with
      | some len => String.mk curr.reverse :: splitDescAux fuel ((c :: t).drop len) []
      | none => splitDescAux fuel t (c :: curr)

/-- `re.split` on the who/with separators. -/
def splitDescriptors (s : String) : List String :=
  splitDescAux s.toList.length s.toList []

/-! ### Skill regexes

`re.match(r"(\w.+?)\s+\((\w+)\)\s*$", line)`: the `\s+` / `\w+` runs are
forced maximal because each abuts a literal that is not of its class; the
name group is non-greedy. -/

/-- Match `\s+\((\w+)\)\s*$` against `cs`; returns the level token. -/
def skillSuffix (cs : List Char) : Option String :=
  let k := (cs.takeWhile pyIsSpace).length
  if k = 0 then none
  else
    match cs.drop k with
    | '(' :: r =>
      let w := r.takeWhile wordChar
      if w.isEmpty then none
      else
        match r.drop w.length with
        | ')' :: r2 => if r2.all pyIsSpace then some (String.mk w) else none
        | _ => none
    | _ => none

/-- Expand the name group (`\w` then non-greedy `.+?`) one character at a
time, testing the suffix after each extension. -/
def skillGo : List Char → List Char → Option (String × String)
  | _, [] => none
  | acc, c :: t =>
    if c = '\n' then none
    else
      match skillSuffix t with
      | some lvl => some (String.mk (acc.reverse ++ [c]), lvl)
      | none => skillGo (c :: acc) t

/-- The full skill-start regex: groups (name, level). -/
def skillMatch (s : String) : Option (String × String) :=
  match s.toList with
  | [] => none
  | c :: t => if wordChar c then skillGo [c] t else none

/-- `\s+\(\w+\)` as a prefix of `cs` (part of the description-guard pattern). -/
def skillLooseTail (cs : List Char) : Bool :=
  let k := (cs.takeWhile pyIsSpace).length
  if k = 0 then false
  else
    match cs.drop k with
    | '(' :: r =>
      let w := r.takeWhile wordChar
      !w.isEmpty &&
        (match r.drop w.length with
         | ')' :: _ => true
         | _ => false)
    | _ => false

/-- Scan for a split of the remaining text into `.+` (non-empty, no newline)
followed by `\s+\(\w+\)`. -/
def skillLooseScan : List Char → Bool
  | [] => false
  | c :: t => c ≠ '\n' && (skillLooseTail t || skillLooseScan t)

/-- `re.match(r"^[\w].+\s+\(\w+\)", line)` as a Boolean: the guard the Skills
extractor uses before appending a description line. -/
def skillLoose (s : String) : Bool :=
  match s.toList with
  | [] => false
  | c :: t => wordChar c && skillLooseScan t

/-! ### Attack and cypher regexes -/

/-- `re.match(r"^([A-Za-z\s]+)$", line)` as a Boolean. -/
def attackNamePat (s : String) : Bool :=
  !s.isEmpty && s.toList.all (fun c => c.isAlpha || pyIsSpace c)

/-- The character class `[A-Za-z\s]` of the cypher name group. -/
def cypherClassChar (c : Char) : Bool := c.isAlpha || pyIsSpace c

/-- Decimal digits to a natural number (Python `int`). -/
def digitsToNat (ds : List Char) : Nat :=
  ds.foldl (fun acc c => acc * 10 + (c.toNat - 48)) 0

/-- Match `(.+?)\)\s*$`: expand the type group non-greedily; stop at the
first `)` whose remainder is all whitespace. -/
def cypherTypeGo : List Char → List Char → Option String
  | _, [] => none
  | acc, c :: t =>
    if c = '\n' then none
    else
      match t with
      | ')' :: r =>
        if r.all pyIsSpace then some (String.mk (acc.reverse ++ [c]))
        else cypherTypeGo (c :: acc) t
      | _ => cypherTypeGo (c :: acc) t

/-- Match `\s+\(Level\s+(\d+),\s+(.+?)\)\s*$` against `cs`. -/
def cypherTail (cs : List Char) : Option (Nat × String) :=
  firstSome (wsSplits cs) fun r1 =>
  match litCS ['(', 'L', 'e', 'v', 'e', 'l'] r1 with
  | none => none
  | some r2 =>
    firstSome (wsSplits r2) fun r3 =>
      let d := r3.takeWhile Char.isDigit
      if d.isEmpty then none
      else
        match r3.drop d.length with
        | ',' :: r4 =>
          firstSome (wsSplits r4) fun r5 =>
            match cypherTypeGo [] r5 with
            | some ty => some (digitsToNat d, ty)
            | none => none
        | _ => none

/-- Try the cypher name group greedily: lengths from the maximal
`[A-Za-z\s]` run down to 1. -/
def cypherTry (cs : List Char) : Nat → Option (String × Nat × String)
  | 0 => none
  | n + 1 =>
    match cypherTail (cs.drop (n + 1)) with
    | some (lvl, ty) => some (pyStrip (String.mk (cs.take (n + 1))), lvl, ty)
    | none => cypherTry cs n

/-- `re.match(r"^([A-Za-z\s]+)\s+\(Level\s+(\d+),\s+(.+?)\)\s*$", line)`:
groups (stripped name, level, type).  The name is stripped here because the
source stores `match.group(1).strip()`. -/
def cypherMatch (s : String) : Option (String × Nat × String) :=
  let cs := s.toList
  cypherTry cs (cs.takeWhile cypherClassChar).length

/-! ### Attribute regexes (used with `re.search`) -/

/-- `re.search`: try the position matcher at each suffix, leftmost first. -/
def searchPos (p : List Char → Option α) : List Char → Option α
  | [] => p []
  | c :: t =>
    match p (c :: t) with
    | some x => some x
    | none => searchPos p t

/-- `\s+` with a following literal of a different class: forced-maximal
whitespace run of length at least one. -/
def wsRun1 (cs : List Char) : Option (List Char) :=
  let k := (cs.takeWhile pyIsSpace).length
  if k = 0 then none else some (cs.drop k)

/-- A maximal digit run of length at least one. -/
def digitRun1 (cs : List Char) : Option (Nat × List Char) :=
  let d := cs.takeWhile Char.isDigit
  if d.isEmpty then none else some (digitsToNat d, cs.drop d.length)

/-- A maximal `\w+` run of length at least one. -/
def wordRun1 (cs : List Char) : Option (String × List Char) :=
  let w := cs.takeWhile wordChar
  if w.isEmpty then none else some (String.mk w, cs.drop w.length)

/-- `Pool:\s+(\d+)\s+Edge:\s+(\d+)\s+Defense:\s+(\w+)` at one position. -/
def poolAt (cs : List Char) : Option (Nat × Nat × String) :=
  match litCS "Pool:".toList cs with
  | none => none
  | some r1 =>
    match wsRun1 r1 with
    | none => none
    | some r2 =>
      match digitRun1 r2 with
      | none => none
      | some (pool, r3) =>
        match wsRun1 r3 with
        | none => none
        | some r4 =>
          match litCS "Edge:".toList r4 with
          | none => none
          | some r5 =>
            match wsRun1 r5 with
            | none => none
            | some r6 =>
              match digitRun1 r6 with
              | none => none
              | some (edge, r7) =>
                match wsRun1 r7 with
                | none => none
                | some r8 =>
                  match litCS "Defense:".toList r8 with
                  | none => none
                  | some r9 =>
                    match wsRun1 r9 with
                    | none => none
                    | some r10 =>
                      match wordRun1 r10 with
                      | none => none
                      | some (defense, _) => some (pool, edge, defense)

/-- `<label>:\s+(\w+)` at one position. -/
def labelWordAt (label : String) (cs : List Char) : Option String :=
  match litCS label.toList cs with
  | none => none
  | some r1 =>
    match wsRun1 r1 with
    | none => none
    | some r2 => (wordRun1 r2).map Prod.fst

/-- `<label>:\s+(\d+)` at one position. -/
def labelNatAt (label : String) (cs : List Char) : Option Nat :=
  match litCS label.toList cs with
  | none => none
  | some r1 =>
    match wsRun1 r1 with
    | none => none
    | some r2 => (digitRun1 r2).map Prod.fst

/-- `Recovery Roll:\s+(.+)` at one position: the greedy group takes the rest
of the line (up to a newline, which line splitting precludes). -/
def recoveryAt (cs : List Char) : Option String :=
  match litCS "Recovery Roll:".toList cs with
  | none => none
  | some r1 =>
    match wsRun1 r1 with
    | none => none
    | some r2 =>
      let g := r2.takeWhile (· ≠ '\n')
      if g.isEmpty then none else some (String.mk g)

/-! ### Data model (the `self.data` dictionary) -/

/-- One Might/Speed/Intellect entry. -/
structure PoolStats where
  pool : Nat
  edge : Nat
  defense : String
  deriving DecidableEq, Repr

/-- The `attributes` sub-dictionary; `none` models an absent key. -/
structure Attributes where
  might : Option PoolStats := none
  speed : Option PoolStats := none
  intellect : Option PoolStats := none
  initiative : Option String := none
  effort : Option Nat := none
  armor : Option Nat := none
  xp : Option Nat := none
  recovery_roll : Option String := none
  deriving DecidableEq, Repr

/-- The `header` sub-dictionary. -/
structure HeaderData where
  name : Option String := none
  world : Option String := none
  type : Option String := none
  focus : Option String := none
  flavor : Option String := none
  deriving DecidableEq, Repr

/-- A special ability or attack: `{name, description}`. -/
structure Ability where
  name : String
  description : List String
  deriving DecidableEq, Repr

/-- A skill: `{name, level, description}`. -/
structure Skill where
  name : String
  level : String
  description : List String
  deriving DecidableEq, Repr

/-- A cypher: `{name, level, type, description}`. -/
structure Cypher where
  name : String
  level : Nat
  type : String
  description : List String
  deriving DecidableEq, Repr

/-- The `advancements` sub-dictionary. -/
structure Advancements where
  tier : Option Nat := none
  choices : List String := []
  deriving DecidableEq, Repr

/-- The full parsed record (`self.data`); `background` and `notes` are
insertion-ordered association lists, matching Python dict semantics. -/
structure CharacterRecord where
  header : HeaderData
  attributes : Attributes
  special_abilities : List Ability
  skills : List Skill
  attacks : List Ability
  cyphers : List Cypher
  equipment : List String
  advancements : Advancements
  background : List (String × List String)
  notes : List (String × List String)
  deriving DecidableEq, Repr

/-- The record as initialized in `__init__`: everything empty. -/
def defaultRecord : CharacterRecord :=
  { header := {}
    attributes := {}
    special_abilities := []
    skills := []
    attacks := []
    cyphers := []
    equipment := []
    advancements := {}
    background := []
    notes := [] }

/-! ### Header extractor (`_parse_header`) -/

/-- The header-collection loop stops at a blank line or a pure-dash rule. -/
def headerStop (l : String) : Bool :=
  sIsEmpty (pyStrip l) || isPureDash (pyStrip l)

/-- The contiguous top-of-document lines, stripped and joined with single
spaces (then stripped once more, as the source does). -/
def headerText (lines : List String) : String :=
  pyStrip (sJoinSpace ((lines.takeWhile (fun l => !headerStop l)).map pyStrip))

/-- Build the header fields from the joined header text. -/
def headerFromText (t : String) : HeaderData :=
  match headerMatch t with
  | none => {}
  | some (rawName, descriptors, world?) =>
    let parts := ((splitDescriptors descriptors).map pyStrip).filter (fun p => !sIsEmpty p)
    { name := some (pyStrip rawName)
      world := some (world?.getD "Standard")
      type := parts.get? 0
      focus := parts.get? 1
      flavor := parts.get? 2 }

/-- `_parse_header`. -/
def parseHeader (lines : List String) : HeaderData :=
  headerFromText (headerText lines)

/-! ### Attribute extractor (`_parse_attributes`) -/

/-- Does the line start with one of the eight attribute labels the extractor
dispatches on? -/
def attrKeyed (l : String) : Bool :=
  sStartsWith l "Might:" || sStartsWith l "Speed:" || sStartsWith l "Intellect:" ||
  sStartsWith l "Initiative:" || sStartsWith l "Effort:" || sStartsWith l "Armor:" ||
  sStartsWith l "Experience Points:" || sStartsWith l "Recovery Roll:"

/-- One iteration of the `_parse_attributes` line loop. -/
def attrStep (st : Attributes) (line : String) : Attributes :=
  if sStartsWith line "Might:" then
    match searchPos poolAt line.toList with
    | some (p, e, d) => { st with might := some ⟨p, e, d⟩ }
    | none => st
  else if sStartsWith line "Speed:" then
    match searchPos poolAt line.toList with
    | some (p, e, d) => { st with speed := some ⟨p, e, d⟩ }
    | none => st
  else if sStartsWith line "Intellect:" then
    match searchPos poolAt line.toList with
    | some (p, e, d) => { st with intellect := some ⟨p, e, d⟩ }
    | none => st
  else if sStartsWith line "Initiative:" then
    match searchPos (labelWordAt "Initiative:") line.toList with
    | some v => { st with initiative := some v }
    | none => st
  else if sStartsWith line "Effort:" then
    match searchPos (labelNatAt "Effort:") line.toList with
    | some v => { st with effort := some v }
    | none => st
  else if sStartsWith line "Armor:" then
    match searchPos (labelNatAt "Armor:") line.toList with
    | some v => { st with armor := some v }
    | none => st
  else if sStartsWith line "Experience Points:" then
    match searchPos (labelNatAt "Experience Points:") line.toList with
    | some v => { st with xp := some v }
    | none => st
  else if sStartsWith line "Recovery Roll:" then
    match searchPos recoveryAt line.toList with
    | some v => { st with recovery_roll := some v }
    | none => st
  else st

/-- `_parse_attributes`: a single pass over every line of the document. -/
def parseAttributes (lines : List String) : Attributes :=
  lines.foldl attrStep {}

/-! ### Section segmenter (`_get_section_content`) -/

/-- The canonical section order (`self._section_order`). -/
def sectionOrder : List String :=
  ["Special Abilities", "Skills", "Attacks", "Cyphers",
   "Equipment", "Advancements", "Background", "Notes"]

/-- The set of headers that may terminate a section: the lowered catalog
names strictly after the marker in canonical order (all of them when the
marker is not in the catalog). -/
def nextHeaders (marker : String) : List String :=
  let lowered := sectionOrder.map pyLower
  match lowered.indexOf? (pyLower (pyStrip marker)) with
  | some pos => lowered.drop (pos + 1)
  | none => lowered

/-- Index of the first line whose stripped, lowered text equals the marker. -/
def findMarker (marker : String) : List String → Option Nat
  | [] => none
  | l :: t =>
    if foldLine l == foldLine marker then some 0
    else (findMarker marker t).map (· + 1)

/-- Relative index of the first line matching one of the terminating
headers (the `end_idx` scan). -/
def findEndRel (nh : List String) : List String → Option Nat
  | [] => none
  | l :: t =>
    if nh.contains (foldLine l) then some 0
    else (findEndRel nh t).map (· + 1)

/-- Skip a horizontal-rule line right after the section header
(`lines[start_idx].strip().startswith("---")`). -/
def hrSkip : List String → List String
  | [] => []
  | l :: t => if sStartsWith (pyStrip l) "---" then t else l :: t

/-- The per-line cleanup of the returned region: rstrip, drop blanks and
pure-dash separators. -/
def cleanLine (l : String) : Option String :=
  let t := pyRStrip l
  if sIsEmpty t then none
  else if isPureDash t then none
  else some t

/-- Rstripped, non-blank, non-rule lines of a region, in order. -/
def contentFilter (ls : List String) : List String :=
  ls.filterMap cleanLine

/-- `_get_section_content` (no explicit end marker: no caller passes one). -/
def getSectionContent (lines : List String) (marker : String) : List String :=
  match findMarker marker lines with
  | none => []
  | some i =>
    let rest := hrSkip (lines.drop (i + 1))
    let nh := nextHeaders marker
    let endIdx :=
      match findEndRel nh rest with
      | some j => j
      | none => rest.length
    contentFilter (rest.take endIdx)

/-! ### Line classifier (`_looks_like_subsection_header`) -/

/-- The sentence-start stoplist used by the heuristic. -/
def sentenceStarts : List String :=
  ["you ", "this ", "they ", "the ", "a ", "an ", "your ",
   "possible ", "sometimes ", "depending "]

/-- `_looks_like_subsection_header`. -/
def looksLikeSubsectionHeader (line : String) : Bool :=
  if sIsEmpty line then false
  else
    let s := pyStrip line
    if sIsEmpty s then false
    else if isPureDash s then false
    else if sEndsWith s "." || sEndsWith s "!" || sEndsWith s "?" || sEndsWith s ":" then false
    else
      let lower := pyLower s
      if sentenceStarts.any (fun p => sStartsWith lower p) then false
      else
        let words := pyWords s
        if words.length > 8 || sLength s > 80 then false
        else if s == pyTitle s || words.length ≤ 3 then true
        else false

/-! ### Entity-block extractors -/

/-- Entity-start predicate of the Special Abilities section: a non-empty
line with no leading tab or space and non-blank content. -/
def abilityStart (line : String) : Bool :=
  !sIsEmpty line && !sStartsWith line "\t" && !sStartsWith line " " && !sIsEmpty (pyStrip line)

/-- Append a description line to the entity under construction. -/
def abilityAppend (a : Ability) (x : String) : Ability :=
  { a with description := a.description ++ [x] }

/-- The `_parse_special_abilities` accumulator loop: flushed entities are
emitted in flush order; the still-open entity is flushed when the lines end. -/
def specialAbilitiesLoop : Option Ability → List String → List Ability
  | curr, [] => curr.toList
  | curr, line :: rest =>
    if abilityStart line then
      curr.toList ++ specialAbilitiesLoop (some ⟨pyStrip line, []⟩) rest
    else if curr.isSome && !sIsEmpty (pyStrip line) then
      specialAbilitiesLoop (curr.map (abilityAppend · (pyStrip line))) rest
    else specialAbilitiesLoop curr rest

/-- Append a description line to the skill under construction. -/
def skillAppend (s : Skill) (x : String) : Skill :=
  { s with description := s.description ++ [x] }

/-- The `_parse_skills` loop.  A line is a skill start when the full skill
regex matches its stripped text; otherwise it is appended only when the
loose guard pattern does not match. -/
def skillsLoop : Option Skill → List String → List Skill
  | curr, [] => curr.toList
  | curr, line :: rest =>
    match skillMatch (pyStrip line) with
    | some (n, lvl) => curr.toList ++ skillsLoop (some ⟨n, lvl, []⟩) rest
    | none =>
      if curr.isSome && !sIsEmpty (pyStrip line) && !skillLoose (pyStrip line) then
        skillsLoop (curr.map (skillAppend · (pyStrip line))) rest
      else skillsLoop curr rest

/-- Entity-start predicate of the Attacks section. -/
def attackStart (line : String) : Bool :=
  !sIsEmpty line && !sStartsWith line "\t" && !sIsEmpty (pyStrip line) &&
    attackNamePat (pyStrip line) && decide (sLength (pyStrip line) < 50)

/-- The `_parse_attacks` loop, preserving the source's two-level branch:
an untabbed non-blank line either starts an attack or is appended; a tabbed
line is appended when an attack is open. -/
def attacksLoop : Option Ability → List String → List Ability
  | curr, [] => curr.toList
  | curr, line :: rest =>
    if !sIsEmpty line && !sStartsWith line "\t" && !sIsEmpty (pyStrip line) then
      if attackNamePat (pyStrip line) && decide (sLength (pyStrip line) < 50) then
        curr.toList ++ attacksLoop (some ⟨pyStrip line, []⟩) rest
      else if curr.isSome then
        attacksLoop (curr.map (abilityAppend · (pyStrip line))) rest
      else attacksLoop curr rest
    else if curr.isSome && !sIsEmpty (pyStrip line) then
      attacksLoop (curr.map (abilityAppend · (pyStrip line))) rest
    else attacksLoop curr rest

/-- Append a description line to the cypher under construction. -/
def cypherAppend (c : Cypher) (x : String) : Cypher :=
  { c with description := c.description ++ [x] }

/-- The `_parse_cyphers` loop. -/
def cyphersLoop : Option Cypher → List String → List Cypher
  | curr, [] => curr.toList
  | curr, line :: rest =>
    match cypherMatch (pyStrip line) with
    | some (n, lvl, ty) => curr.toList ++ cyphersLoop (some ⟨n, lvl, ty, []⟩) rest
    | none =>
      if curr.isSome && !sIsEmpty (pyStrip line) then
        cyphersLoop (curr.map (cypherAppend · (pyStrip line))) rest
      else cyphersLoop curr rest

/-! ### Flat-list extractors -/

/-- `_parse_equipment` over the section's content lines. -/
def parseEquipmentContent : List String → List String
  | [] => []
  | l :: rest =>
    let t := pyStrip l
    if sStartsWith t "-" then pyStrip (String.mk (t.toList.drop 1)) :: parseEquipmentContent rest
    else if !sIsEmpty t && !sStartsWith t "Money:" then t :: parseEquipmentContent rest
    else parseEquipmentContent rest

/-- One iteration of the `_parse_advancements` loop. -/
def advStep (st : Advancements) (line : String) : Advancements :=
  if hasSubstr line "Tier:" then
    match searchPos (labelNatAt "Tier:") line.toList with
    | some n => { st with tier := some n }
    | none => st
  else if sStartsWith (pyStrip line) "[" then
    { st with choices := st.choices ++ [pyStrip line] }
  else st

/-- `_parse_advancements` over the section's content lines. -/
def parseAdvancementsContent (content : List String) : Advancements :=
  content.foldl advStep {}

/-! ### Keyed-list extractors (`_parse_background`, `_parse_notes`) -/

/-- Python `d[k] = v` on an insertion-ordered dict: replace in place when the
key exists, append otherwise. -/
def setKey (m : List (String × List String)) (k : String) (v : List String) :
    List (String × List String) :=
  match m with
  | [] => [(k, v)]
  | (k', v') :: t => if k' = k then (k, v) :: t else (k', v') :: setKey t k v

/-- Python `d[k].append(x)` (no-op when the key is absent, which the loop
invariant precludes). -/
def appendKey (m : List (String × List String)) (k : String) (x : String) :
    List (String × List String) :=
  match m with
  | [] => []
  | (k', v') :: t => if k' = k then (k', v' ++ [x]) :: t else (k', v') :: appendKey t k x

/-- Assoc-list lookup. -/
def lookupKey (m : List (String × List String)) (k : String) : Option (List String) :=
  match m with
  | [] => none
  | (k', v') :: t => if k' = k then some v' else lookupKey t k

/-- The full condition under which `_parse_background` / `_parse_notes`
treat a line as a subsection header. -/
def bgHeaderLine (line : String) : Bool :=
  !sIsEmpty line && !sStartsWith line "\t" && looksLikeSubsectionHeader line

/-- The `_parse_background` loop over the section's content lines. -/
def bgLoop : Option String → List (String × List String) → List String →
    List (String × List String)
  | _, m, [] => m
  | curr, m, line :: rest =>
    if bgHeaderLine line then
      bgLoop (some (pyStrip line)) (setKey m (pyStrip line) []) rest
    else
      match curr with
      | some k =>
        if !sIsEmpty (pyStrip line) then bgLoop curr (appendKey m k (pyStrip line)) rest
        else bgLoop curr m rest
      | none => bgLoop curr m rest

/-- The `_parse_notes` loop (textually identical to `_parse_background` in
the source, writing to the other field). -/
def notesLoop : Option String → List (String × List String) → List String →
    List (String × List String)
  | _, m, [] => m
  | curr, m, line :: rest =>
    if bgHeaderLine line then
      notesLoop (some (pyStrip line)) (setKey m (pyStrip line) []) rest
    else
      match curr with
      | some k =>
        if !sIsEmpty (pyStrip line) then notesLoop curr (appendKey m k (pyStrip line)) rest
        else notesLoop curr m rest
      | none => notesLoop curr m rest

/-! ### Assembler (`parse`) -/

/-- `CharacterSheetParser.parse` over the document's line list. -/
def parseLines (lines : List String) : CharacterRecord :=
  { header := parseHeader lines
    attributes := parseAttributes lines
    special_abilities := specialAbilitiesLoop none (getSectionContent lines "Special Abilities")
    skills := skillsLoop none (getSectionContent lines "Skills")
    attacks := attacksLoop none (getSectionContent lines "Attacks")
    cyphers := cyphersLoop none (getSectionContent lines "Cyphers")
    equipment := parseEquipmentContent (getSectionContent lines "Equipment")
    advancements := parseAdvancementsContent (getSectionContent lines "Advancements")
    background := bgLoop none [] (getSectionContent lines "Background")
    notes := notesLoop none [] (getSectionContent lines "Notes") }

/-- `CharacterSheetParser(text).parse()`: the text is split on newlines as in
`__init__`. -/
def parse (text : String) : CharacterRecord :=
  parseLines (splitLines text)

/-! ## Helper lemmas -/

/-- The index-based end scan (`end_idx` loop plus slice) agrees with taking
lines while no terminating header is seen. -/
theorem take_findEndRel (nh : List String) : ∀ l : List String,
    l.take (match findEndRel nh l with | some j => j | none => l.length)
      = l.takeWhile (fun x => !nh.contains (foldLine x))
  | [] => rfl
  | x :: t => by
    have ih := take_findEndRel nh t
    cases h : nh.contains (foldLine x) with
    | true =>
      have h2 : foldLine x ∈ nh := by simpa using h
      simp [findEndRel, h2, List.takeWhile_cons]
    | false =>
      have h2 : foldLine x ∉ nh := by simpa using h
      cases hfe : findEndRel nh t with
      | none =>
        rw [hfe] at ih
        simp [findEndRel, h2, hfe, List.takeWhile_cons, ih]
      | some j =>
        rw [hfe] at ih
        simp [findEndRel, h2, hfe, List.takeWhile_cons, ih]

/-- `getSectionContent` in region form, given the header's index. -/
theorem gsc_region (lines : List String) (marker : String) (i : Nat)
    (h : findMarker marker lines = some i) :
    getSectionContent lines marker =
      contentFilter ((hrSkip (lines.drop (i + 1))).takeWhile
        (fun l => !(nextHeaders marker).contains (foldLine l))) := by
  unfold getSectionContent
  rw [h]
  exact congrArg contentFilter (take_findEndRel _ _)

/-- `getSectionContent` of an absent section is empty. -/
theorem gsc_absent (lines : List String) (marker : String)
    (h : findMarker marker lines = none) :
    getSectionContent lines marker = [] := by
  unfold getSectionContent
  rw [h]

/-! ## C4: section boundaries -/

/-- C4.  For every line sequence and catalog section name `S`, the segmenter
returns the (rstripped, blank- and rule-filtered) lines strictly between the
first line whose trimmed, case-folded text equals `S` (after the documented
skip of a `---` rule right after the header) and the first later line equal,
trimmed and case-folded, to a catalog name strictly after `S` in the fixed
catalog order — document end if none.  Hence a later line equal to `S`
itself, or to an earlier catalog name, never terminates the section, and in
particular a second occurrence of the section's own name is returned as body
content of the first occurrence. -/
theorem c4_section_boundaries (lines : List String) (S : String)
    (_hS : S ∈ sectionOrder) :
    (findMarker S lines = none → getSectionContent lines S = []) ∧
    (∀ i, findMarker S lines = some i →
      getSectionContent lines S =
        contentFilter ((hrSkip (lines.drop (i + 1))).takeWhile
          (fun l => !(nextHeaders S).contains (foldLine l))) ∧
      ∀ l ∈ (hrSkip (lines.drop (i + 1))).takeWhile
          (fun l => !(nextHeaders S).contains (foldLine l)),
        foldLine l = foldLine S → sIsEmpty (pyRStrip l) = false →
        isPureDash (pyRStrip l) = false →
        pyRStrip l ∈ getSectionContent lines S) := by
  refine ⟨gsc_absent lines S, fun i hi => ⟨gsc_region lines S i hi, ?_⟩⟩
  intro l hl _ hne hnd
  rw [gsc_region lines S i hi]
  refine List.mem_filterMap.mpr ⟨l, hl, ?_⟩
  simp [cleanLine, hne, hnd]

/-- Witness for C4: a duplicated `Skills` line is kept as body content of
the first `Skills` section rather than terminating it. -/
theorem c4_witness :
    getSectionContent ["Skills", "Skills", "it was raining that day"] "Skills"
      = ["Skills", "it was raining that day"] := by
  have h := (c4_section_boundaries ["Skills", "Skills", "it was raining that day"]
    "Skills" (by decide)).2 0 (by decide)
  exact h.1.trans (by decide)

/-! ## C1: flush-exactly-once for the entity-bearing sections -/

/-- `Option.toList` commutes with mapping the name out. -/
theorem map_optionToList (f : α → β) (o : Option α) :
    o.toList.map f = (o.map f).toList := by
  cases o <;> rfl

theorem specialAbilitiesLoop_names (content : List String) : ∀ curr,
    ((specialAbilitiesLoop curr content).map Ability.name)
      = (curr.map Ability.name).toList ++ (content.filter abilityStart).map pyStrip := by
  induction content with
  | nil => intro curr; simp [specialAbilitiesLoop, map_optionToList]
  | cons line rest ih =>
    intro curr
    by_cases h : abilityStart line
    · simp [specialAbilitiesLoop, h, ih, map_optionToList]
    · simp only [specialAbilitiesLoop, h, Bool.false_eq_true, if_false,
        List.filter_cons_of_neg (by simpa using h)]
      by_cases h2 : curr.isSome && !sIsEmpty (pyStrip line)
      · rw [if_pos h2, ih]
        cases curr with
        | none => simp at h2
        | some a => simp [abilityAppend]
      · rw [if_neg h2, ih]

theorem skillsLoop_names (content : List String) : ∀ curr,
    ((skillsLoop curr content).map Skill.name)
      = (curr.map Skill.name).toList
        ++ content.filterMap (fun l => (skillMatch (pyStrip l)).map Prod.fst) := by
  induction content with
  | nil => intro curr; simp [skillsLoop, map_optionToList]
  | cons line rest ih =>
    intro curr
    cases h : skillMatch (pyStrip line) with
    | some nl =>
      obtain ⟨n, lvl⟩ := nl
      simp [skillsLoop, h, ih, map_optionToList]
    | none =>
      simp only [skillsLoop, h, List.filterMap_cons, Option.map_none']
      by_cases h2 : curr.isSome && !sIsEmpty (pyStrip line) && !skillLoose (pyStrip line)
      · rw [if_pos h2, ih]
        cases curr with
        | none => simp at h2
        | some a => simp [skillAppend]
      · rw [if_neg h2, ih]

/-- The source's two-level branch structure of `_parse_attacks` flattened
into start / append / skip cases. -/
theorem attacksLoop_step (curr : Option Ability) (line : String) (rest : List String) :
    attacksLoop curr (line :: rest) =
      if attackStart line then
        curr.toList ++ attacksLoop (some ⟨pyStrip line, []⟩) rest
      else if curr.isSome && !sIsEmpty (pyStrip line) then
        attacksLoop (curr.map (abilityAppend · (pyStrip line))) rest
      else attacksLoop curr rest := by
  cases he : sIsEmpty line <;> cases ht : sStartsWith line "\t" <;>
    cases hp : sIsEmpty (pyStrip line) <;>
    cases hn : attackNamePat (pyStrip line) <;>
    cases hl : decide (sLength (pyStrip line) < 50) <;>
    cases curr <;>
    simp [attacksLoop, attackStart, he, ht, hp, hn, hl]

theorem attacksLoop_names (content : List String) : ∀ curr,
    ((attacksLoop curr content).map Ability.name)
      = (curr.map Ability.name).toList ++ (content.filter attackStart).map pyStrip := by
  induction content with
  | nil => intro curr; simp [attacksLoop, map_optionToList]
  | cons line rest ih =>
    intro curr
    rw [attacksLoop_step]
    by_cases h : attackStart line
    · simp [h, ih, map_optionToList]
    · simp only [h, Bool.false_eq_true, if_false,
        List.filter_cons_of_neg (by simpa using h)]
      by_cases h2 : curr.isSome && !sIsEmpty (pyStrip line)
      · rw [if_pos h2, ih]
        cases curr with
        | none => simp at h2
        | some a => simp [abilityAppend]
      · rw [if_neg h2, ih]

theorem cyphersLoop_names (content : List String) : ∀ curr,
    ((cyphersLoop curr content).map Cypher.name)
      = (curr.map Cypher.name).toList
        ++ content.filterMap (fun l => (cypherMatch (pyStrip l)).map (fun m => m.1)) := by
  induction content with
  | nil => intro curr; simp [cyphersLoop, map_optionToList]
  | cons line rest ih =>
    intro curr
    cases h : cypherMatch (pyStrip line) with
    | some m =>
      obtain ⟨n, lvl, ty⟩ := m
      simp [cyphersLoop, h, ih, map_optionToList]
    | none =>
      simp only [cyphersLoop, h, List.filterMap_cons, Option.map_none']
      by_cases h2 : curr.isSome && !sIsEmpty (pyStrip line)
      · rw [if_pos h2, ih]
        cases curr with
        | none => simp at h2
        | some a => simp [cypherAppend]
      · rw [if_neg h2, ih]

/-- C1.  For every entity-bearing section's content lines, the extractor
emits exactly one entity per entity-start line, in source order (the output
name sequence equals the start lines' captured names in order); lines before
the first start line produce no entry, and each opened entity is flushed
exactly once. -/
theorem c1_flush_exactly_once :
    (∀ content : List String,
      ((specialAbilitiesLoop none content).map Ability.name)
        = (content.filter abilityStart).map pyStrip) ∧
    (∀ content : List String,
      ((skillsLoop none content).map Skill.name)
        = content.filterMap (fun l => (skillMatch (pyStrip l)).map Prod.fst)) ∧
    (∀ content : List String,
      ((attacksLoop none content).map Ability.name)
        = (content.filter attackStart).map pyStrip) ∧
    (∀ content : List String,
      ((cyphersLoop none content).map Cypher.name)
        = content.filterMap (fun l => (cypherMatch (pyStrip l)).map (fun m => m.1))) :=
  ⟨fun c => by simpa using specialAbilitiesLoop_names c none,
   fun c => by simpa using skillsLoop_names c none,
   fun c => by simpa using attacksLoop_names c none,
   fun c => by simpa using cyphersLoop_names c none⟩

/-! ## C3: header scenario -/

/-- C3.  If the contiguous non-blank, non-rule lines at the top of the
document, stripped and joined with single spaces, equal
`Zamira is a Weird Explorer who Crafts Illusions in a Historical world`,
then the parsed header has name `Zamira`, type `Weird Explorer`, focus
`Crafts Illusions`, and world `Historical world` (the trailing world clause
binds last; the descriptor clause splits on whole-word who/with). -/
theorem c3_header_scenario (lines : List String)
    (h : headerText lines =
      "Zamira is a Weird Explorer who Crafts Illusions in a Historical world") :
    parseHeader lines =
      { name := some "Zamira", world := some "Historical world",
        type := some "Weird Explorer", focus := some "Crafts Illusions",
        flavor := none } := by
  unfold parseHeader
  rw [h]
  decide

/-- Witness for C3 at a concrete one-line document. -/
theorem c3_witness :
    headerText ["Zamira is a Weird Explorer who Crafts Illusions in a Historical world"]
        = "Zamira is a Weird Explorer who Crafts Illusions in a Historical world" ∧
      parseHeader ["Zamira is a Weird Explorer who Crafts Illusions in a Historical world"]
        = { name := some "Zamira", world := some "Historical world",
            type := some "Weird Explorer", focus := some "Crafts Illusions",
            flavor := none } :=
  ⟨by decide, c3_header_scenario _ (by decide)⟩

/-! ## C5: equipment extractor -/

/-- C5.  Over the Equipment section's content lines: a line whose stripped
text begins with `-` has the bullet stripped (and is kept even if the rest
begins with `Money:`); any other line beginning with `Money:` is excluded;
every other non-blank line is kept (stripped) as one entry, in source
order.  In particular the scenario lines yield `["Rope (50ft)"]`. -/
theorem c5_equipment_extractor :
    (∀ content : List String,
      parseEquipmentContent content = content.filterMap (fun l =>
        if sStartsWith (pyStrip l) "-" then
          some (pyStrip (String.mk ((pyStrip l).toList.drop 1)))
        else if !sIsEmpty (pyStrip l) && !sStartsWith (pyStrip l) "Money:" then
          some (pyStrip l)
        else none)) ∧
    parseEquipmentContent ["- Rope (50ft)", "Money: 12 shins"] = ["Rope (50ft)"] ∧
    (parseLines ["Equipment", "- Rope (50ft)", "Money: 12 shins"]).equipment
      = ["Rope (50ft)"] := by
  refine ⟨?_, by decide, by decide⟩
  intro content
  induction content with
  | nil => rfl
  | cons l rest ih =>
    simp only [parseEquipmentContent, List.filterMap_cons]
    by_cases h1 : sStartsWith (pyStrip l) "-"
    · simp [h1, ih]
    · by_cases h2 : !sIsEmpty (pyStrip l) && !sStartsWith (pyStrip l) "Money:"
      · simp [h1, h2, ih]
      · simp [h1, h2, ih]

/-! ## C2: graceful default on unrecognized input -/

/-- A document with no line folding to `S` has no section start. -/
theorem findMarker_none (S : String) : ∀ lines : List String,
    (∀ l ∈ lines, foldLine l ≠ foldLine S) → findMarker S lines = none
  | [], _ => rfl
  | l :: t, h => by
    have h1 : foldLine l ≠ foldLine S := h l (List.mem_cons_self _ _)
    have ih := findMarker_none S t (fun x hx => h x (List.mem_cons_of_mem _ hx))
    simp [findMarker, h1, ih]

/-- A line with none of the eight attribute labels leaves the attribute
state unchanged. -/
theorem attrStep_skip (st : Attributes) (l : String) (h : attrKeyed l = false) :
    attrStep st l = st := by
  simp only [attrKeyed, Bool.or_eq_false_iff] at h
  simp [attrStep, h.1.1.1.1.1.1.1, h.1.1.1.1.1.1.2, h.1.1.1.1.1.2, h.1.1.1.1.2,
    h.1.1.1.2, h.1.1.2, h.1.2, h.2]

/-- The attribute pass is the identity on documents without attribute
labels. -/
theorem parseAttributes_skip : ∀ lines : List String,
    (∀ l ∈ lines, attrKeyed l = false) → parseAttributes lines = {}
  | [], _ => rfl
  | l :: t, h => by
    have h1 := attrStep_skip {} l (h l (List.mem_cons_self _ _))
    have ih := parseAttributes_skip t (fun x hx => h x (List.mem_cons_of_mem _ hx))
    simpa [parseAttributes, h1] using ih

/-- C2 (amended).  `parse` is total, and for the empty input, or any input
whose top-of-document text matches no header pattern, whose lines match no
catalog section name, and whose lines carry none of the eight attribute
labels, the returned record has every field at its default.  (As stated the
claim is false: an attribute line such as `Armor: 2` is extracted with no
header and no section present — see the counterexample.) -/
theorem c2_amended_default_record (text : String)
    (hHeader : headerMatch (headerText (splitLines text)) = none)
    (hSections : ∀ l ∈ splitLines text, ∀ S ∈ sectionOrder, foldLine l ≠ foldLine S)
    (hAttrs : ∀ l ∈ splitLines text, attrKeyed l = false) :
    parse text = defaultRecord := by
  have hm : ∀ S ∈ sectionOrder, findMarker S (splitLines text) = none := fun S hS =>
    findMarker_none S _ (fun l hl => hSections l hl S hS)
  have hgsc : ∀ S ∈ sectionOrder, getSectionContent (splitLines text) S = [] :=
    fun S hS => gsc_absent _ _ (hm S hS)
  have hhead : parseHeader (splitLines text) = {} := by
    unfold parseHeader headerFromText
    rw [hHeader]
  unfold parse parseLines
  rw [hhead, parseAttributes_skip _ hAttrs,
    hgsc "Special Abilities" (by decide), hgsc "Skills" (by decide),
    hgsc "Attacks" (by decide), hgsc "Cyphers" (by decide),
    hgsc "Equipment" (by decide), hgsc "Advancements" (by decide),
    hgsc "Background" (by decide), hgsc "Notes" (by decide)]
  rfl

/-- Counterexample to C2 as stated: the input `Armor: 2` has no
recognizable header line and no known section header, yet the parsed record
is not the default — the attribute extractor scans every line of the
document regardless of sections and extracts `armor = 2`. -/
theorem c2_counterexample :
    headerMatch (headerText (splitLines "Armor: 2")) = none ∧
    (∀ l ∈ splitLines "Armor: 2", ∀ S ∈ sectionOrder, foldLine l ≠ foldLine S) ∧
    (parse "Armor: 2").attributes.armor = some 2 ∧
    parse "Armor: 2" ≠ defaultRecord :=
  ⟨by decide, by decide, by decide, by decide⟩

/-- Witness for C2 (amended) at a concrete unrecognizable input. -/
theorem c2_witness : parse "just some plain text" = defaultRecord :=
  c2_amended_default_record _ (by decide) (by decide) (by decide)

/-! ## C6: continuation lines in entity sections -/

/-- C6 (amended).  In the Attacks and Cyphers sections every non-empty
content line that is not an entity start is appended to the open entity's
description, or silently dropped when none is open, and nothing raises.  In
the Skills section this holds only for lines that also fail the loose guard
pattern `^\w.+\s+\(\w+\)`; a line matching the guard but not the full skill
pattern is dropped even while a skill is open (see the counterexample). -/
theorem c6_amended_continuation_lines :
    (∀ (c : Skill) (line : String) (rest : List String),
      skillMatch (pyStrip line) = none → sIsEmpty (pyStrip line) = false →
      skillLoose (pyStrip line) = false →
      skillsLoop (some c) (line :: rest)
        = skillsLoop (some (skillAppend c (pyStrip line))) rest) ∧
    (∀ (c : Skill) (line : String) (rest : List String),
      skillMatch (pyStrip line) = none → skillLoose (pyStrip line) = true →
      skillsLoop (some c) (line :: rest) = skillsLoop (some c) rest) ∧
    (∀ (line : String) (rest : List String),
      skillMatch (pyStrip line) = none →
      skillsLoop none (line :: rest) = skillsLoop none rest) ∧
    (∀ (a : Ability) (line : String) (rest : List String),
      attackStart line = false → sIsEmpty (pyStrip line) = false →
      attacksLoop (some a) (line :: rest)
        = attacksLoop (some (abilityAppend a (pyStrip line))) rest) ∧
    (∀ (line : String) (rest : List String),
      attackStart line = false →
      attacksLoop none (line :: rest) = attacksLoop none rest) ∧
    (∀ (c : Cypher) (line : String) (rest : List String),
      cypherMatch (pyStrip line) = none → sIsEmpty (pyStrip line) = false →
      cyphersLoop (some c) (line :: rest)
        = cyphersLoop (some (cypherAppend c (pyStrip line))) rest) ∧
    (∀ (line : String) (rest : List String),
      cypherMatch (pyStrip line) = none →
      cyphersLoop none (line :: rest) = cyphersLoop none rest) := by
  refine ⟨?_, ?_, ?_, ?_, ?_, ?_, ?_⟩
  · intro c line rest h he hl
    simp [skillsLoop, h, he, hl]
  · intro c line rest h hl
    simp [skillsLoop, h, hl]
  · intro line rest h
    simp [skillsLoop, h]
  · intro a line rest h he
    rw [attacksLoop_step]
    simp [h, he]
  · intro line rest h
    rw [attacksLoop_step]
    simp [h]
  · intro c line rest h he
    simp [cyphersLoop, h, he]
  · intro line rest h
    simp [cyphersLoop, h]

/-- Counterexample to C6 as stated: inside a Skills section with a skill
open, the non-empty, non-start line `Athletics (Specialized) while running`
matches the loose guard pattern and is discarded — it never appears in the
open skill's description. -/
theorem c6_counterexample :
    skillMatch (pyStrip "Athletics (Specialized) while running") = none ∧
    sIsEmpty (pyStrip "Athletics (Specialized) while running") = false ∧
    (parse "Skills\nClimbing (Trained)\nAthletics (Specialized) while running").skills
      = [⟨"Climbing", "Trained", []⟩] :=
  ⟨by decide, by decide, by decide⟩

/-- Witness for C6 (amended): the guarded drop branch at a concrete input. -/
theorem c6_witness :
    skillsLoop (some ⟨"Climbing", "Trained", []⟩)
        ["Athletics (Specialized) while running"]
      = [⟨"Climbing", "Trained", []⟩] := by
  have h := c6_amended_continuation_lines.2.1 ⟨"Climbing", "Trained", []⟩
    "Athletics (Specialized) while running" [] (by decide) (by decide)
  exact h.trans (by decide)

/-! ## C7: background and notes subsections -/

/-- Setting a key makes it hold exactly the new body. -/
theorem lookupKey_setKey : ∀ (m : List (String × List String)) (k : String)
    (v : List String), lookupKey (setKey m k v) k = some v
  | [], k, v => by simp [setKey, lookupKey]
  | (k', v') :: t, k, v => by
    by_cases h : k' = k
    · simp [setKey, lookupKey, h]
    · simp [setKey, lookupKey, h, lookupKey_setKey t k v]

/-- C7.  In the Background and Notes extractors: a line passing the
subsection-header test opens its (stripped) title as the current key with
an empty body — overwriting any previous body under that title
(`lookupKey_setKey` part); any other line is appended (stripped) to the
open subsection's body when one is open and non-blank; and a non-header
line seen before any subsection is opened is silently dropped. -/
theorem c7_background_notes_extractor :
    (∀ (curr : Option String) (m : List (String × List String)) (line : String)
        (rest : List String), bgHeaderLine line = true →
      bgLoop curr m (line :: rest)
        = bgLoop (some (pyStrip line)) (setKey m (pyStrip line) []) rest) ∧
    (∀ (k : String) (m : List (String × List String)) (line : String)
        (rest : List String), bgHeaderLine line = false →
      sIsEmpty (pyStrip line) = false →
      bgLoop (some k) m (line :: rest) = bgLoop (some k) (appendKey m k (pyStrip line)) rest) ∧
    (∀ (m : List (String × List String)) (line : String) (rest : List String),
      bgHeaderLine line = false →
      bgLoop none m (line :: rest) = bgLoop none m rest) ∧
    (∀ (m : List (String × List String)) (k : String) (v : List String),
      lookupKey (setKey m k v) k = some v) ∧
    (∀ (curr : Option String) (m : List (String × List String)) (line : String)
        (rest : List String), bgHeaderLine line = true →
      notesLoop curr m (line :: rest)
        = notesLoop (some (pyStrip line)) (setKey m (pyStrip line) []) rest) ∧
    (∀ (k : String) (m : List (String × List String)) (line : String)
        (rest : List String), bgHeaderLine line = false →
      sIsEmpty (pyStrip line) = false →
      notesLoop (some k) m (line :: rest)
        = notesLoop (some k) (appendKey m k (pyStrip line)) rest) ∧
    (∀ (m : List (String × List String)) (line : String) (rest : List String),
      bgHeaderLine line = false →
      notesLoop none m (line :: rest) = notesLoop none m rest) := by
  refine ⟨?_, ?_, ?_, lookupKey_setKey, ?_, ?_, ?_⟩
  · intro curr m line rest h; simp [bgLoop, h]
  · intro k m line rest h he; simp [bgLoop, h, he]
  · intro m line rest h; simp [bgLoop, h]
  · intro curr m line rest h; simp [notesLoop, h]
  · intro k m line rest h he; simp [notesLoop, h, he]
  · intro m line rest h; simp [notesLoop, h]

/-- Witness for C7: a concrete repeated title overwrites its prior body and
continuation lines attach to the currently open subsection. -/
theorem c7_witness :
    bgLoop none [] ["My Story"] = [("My Story", [])] ∧
    bgLoop none [("My Story", ["old line here"])] ["My Story"]
      = [("My Story", [])] := by
  constructor
  · have h := c7_background_notes_extractor.1 none [] "My Story" [] (by decide)
    exact h.trans (by decide)
  · have h := c7_background_notes_extractor.1 none [("My Story", ["old line here"])]
      "My Story" [] (by decide)
    exact h.trans (by decide)

/-! ## C9: indentation and the subsection-header test -/

/-- C9 (amended).  In the Background and Notes extractors a line starting
with a tab is never classified as a subsection header: it is appended to
the open subsection's body or dropped when none is open.  (As stated for
arbitrary leading whitespace the claim is false: only `\t` is checked, and
a space-indented title-case line does open a subsection — see the
counterexample.) -/
theorem c9_amended_tab_lines :
    (∀ line : String, sStartsWith line "\t" = true → bgHeaderLine line = false) ∧
    (∀ (k : String) (m : List (String × List String)) (line : String)
        (rest : List String), sStartsWith line "\t" = true →
      sIsEmpty (pyStrip line) = false →
      bgLoop (some k) m (line :: rest)
        = bgLoop (some k) (appendKey m k (pyStrip line)) rest ∧
      notesLoop (some k) m (line :: rest)
        = notesLoop (some k) (appendKey m k (pyStrip line)) rest) ∧
    (∀ (m : List (String × List String)) (line : String) (rest : List String),
      sStartsWith line "\t" = true →
      bgLoop none m (line :: rest) = bgLoop none m rest ∧
      notesLoop none m (line :: rest) = notesLoop none m rest) := by
  have hh : ∀ line : String, sStartsWith line "\t" = true → bgHeaderLine line = false := by
    intro line h
    simp [bgHeaderLine, h]
  refine ⟨hh, ?_, ?_⟩
  · intro k m line rest h he
    exact ⟨by simp [bgLoop, hh line h, he], by simp [notesLoop, hh line h, he]⟩
  · intro m line rest h
    exact ⟨by simp [bgLoop, hh line h], by simp [notesLoop, hh line h]⟩

/-- Counterexample to C9 as stated: the space-indented line ` My Title` is
not tab-led, passes the header heuristic, and opens a subsection instead of
being treated as a continuation. -/
theorem c9_counterexample :
    sStartsWith " My Title" " " = true ∧
    sStartsWith " My Title" "\t" = false ∧
    (parse "Background\n My Title").background = [("My Title", [])] :=
  ⟨by decide, by decide, by decide⟩

/-- Witness for C9 (amended) at a concrete tab-led line. -/
theorem c9_witness :
    bgHeaderLine "\tIndented body text" = false ∧
    bgLoop (some "Key") [("Key", [])] ["\tIndented body text"]
      = [("Key", ["Indented body text"])] := by
  refine ⟨c9_amended_tab_lines.1 "\tIndented body text" (by decide), ?_⟩
  have h := (c9_amended_tab_lines.2.1 "Key" [("Key", [])] "\tIndented body text" []
    (by decide) (by decide)).1
  exact h.trans (by decide)

/-! ## C10: the cypher name class -/

/-- Taking no more than the `takeWhile` run keeps the predicate. -/
theorem all_take_of_le_takeWhile (p : α → Bool) : ∀ (cs : List α) (k : Nat),
    k ≤ (cs.takeWhile p).length → (cs.take k).all p = true
  | _, 0, _ => by simp
  | [], k + 1, h => by simp at h ⊢
  | c :: t, k + 1, h => by
    cases hp : p c with
    | false => rw [List.takeWhile_cons_of_neg (by simp [hp])] at h; simp at h
    | true =>
      rw [List.takeWhile_cons_of_pos hp] at h
      simp only [List.length_cons, Nat.add_le_add_iff_right] at h
      simp [hp, all_take_of_le_takeWhile p t k h]

/-- Membership survives `dropWhile`. -/
theorem mem_of_mem_dropWhile {p : α → Bool} : ∀ {l : List α} {a : α},
    a ∈ l.dropWhile p → a ∈ l := by
  intro l a h
  induction l with
  | nil => simp [List.dropWhile] at h
  | cons x t ih =>
    rw [List.dropWhile_cons] at h
    split at h
    · exact List.mem_cons_of_mem _ (ih h)
    · exact h

/-- Stripping preserves an all-characters property. -/
theorem pyStrip_all (p : Char → Bool) (s : String) (h : s.toList.all p = true) :
    (pyStrip s).toList.all p = true := by
  simp only [List.all_eq_true] at h ⊢
  intro c hc
  apply h
  change c ∈ ((s.toList.dropWhile pyIsSpace).reverse.dropWhile pyIsSpace).reverse at hc
  rw [List.mem_reverse] at hc
  have h1 := mem_of_mem_dropWhile hc
  rw [List.mem_reverse] at h1
  exact mem_of_mem_dropWhile h1

/-- A successful `cypherTry` takes its name from a prefix of the
`[A-Za-z\s]` run. -/
theorem cypherTry_name_class (cs : List Char) : ∀ (m : Nat),
    m ≤ (cs.takeWhile cypherClassChar).length →
    ∀ (n : String) (lv : Nat) (ty : String), cypherTry cs m = some (n, lv, ty) →
    n.toList.all cypherClassChar = true
  | 0, _, n, lv, ty, h => by simp [cypherTry] at h
  | m + 1, hm, n, lv, ty, h => by
    rw [cypherTry] at h
    cases htail : cypherTail (cs.drop (m + 1)) with
    | some p =>
      rw [htail] at h
      obtain ⟨hn, _, _⟩ := Prod.mk.injEq .. ▸ (Option.some.injEq .. ▸ h :
        (pyStrip (String.mk (cs.take (m + 1))), p.1, p.2) = (n, lv, ty))
      subst hn
      exact pyStrip_all _ _ (all_take_of_le_takeWhile _ cs (m + 1) hm)
    | none =>
      rw [htail] at h
      exact cypherTry_name_class cs m (Nat.le_of_succ_le hm) n lv ty h

/-- C10 (amended).  A line opens a new cypher entry only if the name part
before the parenthesis consists solely of ASCII letters and whitespace
characters (space, tab, and the other `\s` characters — not only spaces,
which is what the claim as stated requires; see the counterexample with a
tab).  A line of cypher shape whose name carries any other character (a
digit, hyphen, apostrophe, etc.) opens nothing: it is appended to the open
cypher's description or dropped when none is open. -/
theorem c10_amended_cypher_name_class :
    (∀ (s n : String) (lv : Nat) (ty : String),
      cypherMatch s = some (n, lv, ty) →
      n.toList.all (fun c => c.isAlpha || pyIsSpace c) = true) ∧
    (∀ (c : Cypher) (line : String) (rest : List String),
      cypherMatch (pyStrip line) = none → sIsEmpty (pyStrip line) = false →
      cyphersLoop (some c) (line :: rest)
        = cyphersLoop (some (cypherAppend c (pyStrip line))) rest) ∧
    (∀ (line : String) (rest : List String),
      cypherMatch (pyStrip line) = none →
      cyphersLoop none (line :: rest) = cyphersLoop none rest) := by
  refine ⟨?_, ?_, ?_⟩
  · intro s n lv ty h
    exact cypherTry_name_class s.toList _ (Nat.le_refl _) n lv ty h
  · intro c line rest h he
    simp [cyphersLoop, h, he]
  · intro line rest h
    simp [cyphersLoop, h]

/-- Counterexample to C10 as stated: the name `Foo\tBar` contains a tab —
not an ASCII letter or a space — yet the line opens a cypher, because the
regex class is `[A-Za-z\s]`, letters or any whitespace. -/
theorem c10_counterexample :
    (parse "Cyphers\nFoo\tBar (Level 2, Gas)").cyphers
      = [⟨"Foo\tBar", 2, "Gas", []⟩] ∧
    ("Foo\tBar".toList.all (fun c => c.isAlpha || c = ' ')) = false :=
  ⟨by decide, by decide⟩

/-- Witness for C10 (amended) at a concrete matching line. -/
theorem c10_witness :
    cypherMatch "Night Vision (Level 3, Pill)" = some ("Night Vision", 3, "Pill") ∧
    ("Night Vision".toList.all (fun c => c.isAlpha || pyIsSpace c)) = true :=
  ⟨by decide, c10_amended_cypher_name_class.1 "Night Vision (Level 3, Pill)"
    "Night Vision" 3 "Pill" (by decide)⟩

/-! ## C8: section independence (frame lemmas) -/

theorem takeWhile_append_of_all {q : α → Bool} : ∀ (X Z : List α),
    (∀ x ∈ X, q x = true) → (X ++ Z).takeWhile q = X ++ Z.takeWhile q
  | [], Z, _ => by simp
  | x :: X', Z, h => by
    have hx : q x = true := h x (List.mem_cons_self _ _)
    simp only [List.cons_append, List.takeWhile_cons_of_pos hx]
    rw [takeWhile_append_of_all X' Z (fun y hy => h y (List.mem_cons_of_mem _ hy))]

theorem takeWhile_all_eq_self {q : α → Bool} : ∀ (X : List α),
    (∀ x ∈ X, q x = true) → X.takeWhile q = X
  | [], _ => rfl
  | x :: X', h => by
    have hx : q x = true := h x (List.mem_cons_self _ _)
    simp only [List.takeWhile_cons_of_pos hx]
    rw [takeWhile_all_eq_self X' (fun y hy => h y (List.mem_cons_of_mem _ hy))]

theorem takeWhile_append_of_exists {q : α → Bool} : ∀ (X Z : List α),
    (∃ x ∈ X, q x = false) → (X ++ Z).takeWhile q = X.takeWhile q
  | [], _, h => by simp at h
  | x :: X', Z, h => by
    cases hx : q x with
    | false => simp [List.takeWhile_cons_of_neg, hx]
    | true =>
      obtain ⟨y, hy, hqy⟩ := h
      rcases List.mem_cons.mp hy with rfl | hy'
      · rw [hx] at hqy; cases hqy
      · simp only [List.cons_append, List.takeWhile_cons_of_pos hx]
        rw [takeWhile_append_of_exists X' Z ⟨y, hy', hqy⟩]

/-- Appending a block whose head fails the predicate leaves `takeWhile`
unchanged. -/
theorem takeWhile_append_blocked {q : α → Bool} (Y : List α) (b : α) (tl : List α)
    (hb : q b = false) : (Y ++ b :: tl).takeWhile q = Y.takeWhile q := by
  by_cases hy : ∀ y ∈ Y, q y = true
  · rw [takeWhile_append_of_all Y _ hy, takeWhile_all_eq_self Y hy,
      List.takeWhile_cons_of_neg (by simp [hb]), List.append_nil]
  · push_neg at hy
    obtain ⟨y, hmem, hqy⟩ := hy
    exact takeWhile_append_of_exists Y _ ⟨y, hmem, Bool.not_eq_true _ ▸ hqy⟩

theorem drop_append_le : ∀ (A B : List α) (n : Nat), n ≤ A.length →
    (A ++ B).drop n = A.drop n ++ B
  | _, _, 0, _ => by simp
  | [], _, n + 1, h => by simp at h
  | a :: A', B, n + 1, h => by
    simp only [List.cons_append, List.drop_succ_cons]
    exact drop_append_le A' B n (Nat.le_of_succ_le_succ h)

theorem findMarker_lt_length (S : String) : ∀ (A : List String) (i : Nat),
    findMarker S A = some i → i < A.length
  | [], i, h => by simp [findMarker] at h
  | l :: t, i, h => by
    by_cases h1 : foldLine l == foldLine S
    · simp [findMarker, h1] at h
      simp only [List.length_cons]
      omega
    · simp only [findMarker, h1, Bool.false_eq_true, if_false] at h
      cases hfm : findMarker S t with
      | none => rw [hfm] at h; cases h
      | some j =>
        rw [hfm] at h
        simp only [Option.map_some', Option.some.injEq] at h
        have := findMarker_lt_length S t j hfm
        simp only [List.length_cons]
        omega

theorem findMarker_some_mem (S : String) : ∀ (A : List String) (i : Nat),
    findMarker S A = some i → ∃ l ∈ A, foldLine l = foldLine S
  | [], i, h => by simp [findMarker] at h
  | l :: t, i, h => by
    by_cases h1 : foldLine l == foldLine S
    · exact ⟨l, List.mem_cons_self _ _, by simpa using h1⟩
    · simp only [findMarker, h1, Bool.false_eq_true, if_false] at h
      cases hfm : findMarker S t with
      | none => rw [hfm] at h; cases h
      | some j =>
        obtain ⟨l', hl', he⟩ := findMarker_some_mem S t j hfm
        exact ⟨l', List.mem_cons_of_mem _ hl', he⟩

theorem findMarker_append_some (S : String) : ∀ (A B : List String) (i : Nat),
    findMarker S A = some i → findMarker S (A ++ B) = some i
  | [], _, i, h => by simp [findMarker] at h
  | l :: t, B, i, h => by
    by_cases h1 : foldLine l == foldLine S
    · simp only [findMarker, h1, if_true] at h ⊢
      simpa using h
    · simp only [findMarker, h1, Bool.false_eq_true, if_false] at h ⊢
      cases hfm : findMarker S t with
      | none => rw [hfm] at h; cases h
      | some j =>
        rw [hfm] at h
        have ih : findMarker S (t.append B) = some j := findMarker_append_some S t B j hfm
        rw [ih]
        simpa using h

theorem findMarker_append_none (S : String) : ∀ (A B : List String),
    findMarker S A = none → findMarker S B = none → findMarker S (A ++ B) = none
  | [], B, _, h2 => by simpa using h2
  | l :: t, B, h1, h2 => by
    by_cases hl : foldLine l == foldLine S
    · simp [findMarker, hl] at h1
    · simp only [findMarker, hl, Bool.false_eq_true, if_false,
        Option.map_eq_none'] at h1 ⊢
      exact findMarker_append_none S t B h1 h2

/-- No catalog name's stripped text starts with `---`. -/
theorem catalog_no_hr : ∀ S ∈ sectionOrder, sStartsWith (pyStrip S) "---" = false := by
  decide

/-- Catalog names have pairwise distinct folds. -/
theorem catalog_fold_inj : ∀ S ∈ sectionOrder, ∀ T ∈ sectionOrder,
    foldLine S = foldLine T → S = T := by
  decide

/-- Skipping a leading rule commutes with appending a block whose head is a
catalog name (which never looks like a rule). -/
theorem hrSkip_append_block (X : List String) (b : String) (tl : List String)
    (hb : sStartsWith (pyStrip b) "---" = false) :
    hrSkip (X ++ b :: tl) = hrSkip X ++ b :: tl := by
  cases X with
  | nil => simp [hrSkip, hb]
  | cons x X' => by_cases hskip : sStartsWith (pyStrip x) "---" <;> simp [hrSkip, hskip]

/-- The frame lemma for the segmenter: appending a final section block
(header line `S` plus body lines matching no catalog name) does not change
the content of any other catalog section `T` present before it, provided
`S` is later than `T` in the canonical order whenever `T` occurs in the
prefix. -/
theorem gsc_append_frame (A tail : List String) (S T : String)
    (hT : T ∈ sectionOrder) (hS : S ∈ sectionOrder) (hST : T ≠ S)
    (hTail : ∀ l ∈ tail, ∀ U ∈ sectionOrder, foldLine l ≠ foldLine U)
    (hOrd : (∃ l ∈ A, foldLine l = foldLine T) →
      (nextHeaders T).contains (foldLine S) = true) :
    getSectionContent (A ++ S :: tail) T = getSectionContent A T := by
  cases hfm : findMarker T A with
  | none =>
    have hblock : findMarker T (S :: tail) = none := by
      have hSne : foldLine S ≠ foldLine T := fun he =>
        hST (catalog_fold_inj S hS T hT he).symm
      simp only [findMarker, beq_iff_eq, hSne, if_false,
        findMarker_none T tail (fun l hl => hTail l hl T hT), Option.map_none']
    rw [gsc_absent _ _ hfm, gsc_absent _ _ (findMarker_append_none T A _ hfm hblock)]
  | some i =>
    have hi : i < A.length := findMarker_lt_length T A i hfm
    have h2 : findMarker T (A ++ S :: tail) = some i := findMarker_append_some T A _ i hfm
    rw [gsc_region _ _ _ h2, gsc_region _ _ _ hfm]
    have hcontains : (nextHeaders T).contains (foldLine S) = true :=
      hOrd (findMarker_some_mem T A i hfm)
    rw [drop_append_le A _ (i + 1) hi,
      hrSkip_append_block _ _ _ (catalog_no_hr S hS),
      @takeWhile_append_blocked _ (fun l => !(nextHeaders T).contains (foldLine l))
        (hrSkip (A.drop (i + 1))) S tail
        (by show (!(nextHeaders T).contains (foldLine S)) = false
            rw [hcontains]
            rfl)]

/-- The header extractor never reads past a blank or rule line, so a block
appended after one cannot change it. -/
theorem parseHeader_append (A B : List String) (h : ∃ a ∈ A, headerStop a = true) :
    parseHeader (A ++ B) = parseHeader A := by
  obtain ⟨a, ha, hs⟩ := h
  unfold parseHeader headerText
  rw [takeWhile_append_of_exists A B ⟨a, ha, by rw [hs]; rfl⟩]

theorem foldl_attrStep_skip : ∀ (B : List String) (st : Attributes),
    (∀ l ∈ B, attrKeyed l = false) → B.foldl attrStep st = st
  | [], _, _ => rfl
  | l :: t, st, h => by
    rw [List.foldl_cons, attrStep_skip st l (h l (List.mem_cons_self _ _))]
    exact foldl_attrStep_skip t st (fun x hx => h x (List.mem_cons_of_mem _ hx))

/-- The attribute pass ignores an appended block without attribute labels. -/
theorem parseAttributes_append (A B : List String)
    (hB : ∀ l ∈ B, attrKeyed l = false) :
    parseAttributes (A ++ B) = parseAttributes A := by
  unfold parseAttributes
  rw [List.foldl_append, foldl_attrStep_skip B _ hB]

/-- C8 (amended).  Deleting a final optional section block — its header
line `S` through document end — changes only that section's field, under
the provisos the code forces: the block's lines carry no attribute labels
and (beyond its own header) match no catalog name, a blank or rule line
precedes the block (so the header region is unaffected), and the block's
name is later in the canonical order than every catalog name occurring
before it.  (As stated the claim is false: the attribute extractor reads
lines inside the removed section — see the counterexample.) -/
theorem c8_amended_section_independence (A tail : List String) (S : String)
    (hS : S ∈ sectionOrder)
    (hHead : ∃ a ∈ A, headerStop a = true)
    (hTail : ∀ l ∈ tail, ∀ U ∈ sectionOrder, foldLine l ≠ foldLine U)
    (hAttr : ∀ l ∈ S :: tail, attrKeyed l = false)
    (hOrd : ∀ T ∈ sectionOrder, T ≠ S → (∃ l ∈ A, foldLine l = foldLine T) →
      (nextHeaders T).contains (foldLine S) = true) :
    (parseLines (A ++ S :: tail)).header = (parseLines A).header ∧
    (parseLines (A ++ S :: tail)).attributes = (parseLines A).attributes ∧
    (S ≠ "Special Abilities" →
      (parseLines (A ++ S :: tail)).special_abilities = (parseLines A).special_abilities) ∧
    (S ≠ "Skills" → (parseLines (A ++ S :: tail)).skills = (parseLines A).skills) ∧
    (S ≠ "Attacks" → (parseLines (A ++ S :: tail)).attacks = (parseLines A).attacks) ∧
    (S ≠ "Cyphers" → (parseLines (A ++ S :: tail)).cyphers = (parseLines A).cyphers) ∧
    (S ≠ "Equipment" →
      (parseLines (A ++ S :: tail)).equipment = (parseLines A).equipment) ∧
    (S ≠ "Advancements" →
      (parseLines (A ++ S :: tail)).advancements = (parseLines A).advancements) ∧
    (S ≠ "Background" →
      (parseLines (A ++ S :: tail)).background = (parseLines A).background) ∧
    (S ≠ "Notes" → (parseLines (A ++ S :: tail)).notes = (parseLines A).notes) := by
  have hframe : ∀ T ∈ sectionOrder, T ≠ S →
      getSectionContent (A ++ S :: tail) T = getSectionContent A T :=
    fun T hT hTS => gsc_append_frame A tail S T hT hS hTS hTail (hOrd T hT hTS)
  refine ⟨parseHeader_append A _ hHead, parseAttributes_append A _ hAttr,
    ?_, ?_, ?_, ?_, ?_, ?_, ?_, ?_⟩
  · intro hne
    show specialAbilitiesLoop none _ = specialAbilitiesLoop none _
    rw [hframe "Special Abilities" (by decide) (fun he => hne he.symm)]
  · intro hne
    show skillsLoop none _ = skillsLoop none _
    rw [hframe "Skills" (by decide) (fun he => hne he.symm)]
  · intro hne
    show attacksLoop none _ = attacksLoop none _
    rw [hframe "Attacks" (by decide) (fun he => hne he.symm)]
  · intro hne
    show cyphersLoop none _ = cyphersLoop none _
    rw [hframe "Cyphers" (by decide) (fun he => hne he.symm)]
  · intro hne
    show parseEquipmentContent _ = parseEquipmentContent _
    rw [hframe "Equipment" (by decide) (fun he => hne he.symm)]
  · intro hne
    show parseAdvancementsContent _ = parseAdvancementsContent _
    rw [hframe "Advancements" (by decide) (fun he => hne he.symm)]
  · intro hne
    show bgLoop none [] _ = bgLoop none [] _
    rw [hframe "Background" (by decide) (fun he => hne he.symm)]
  · intro hne
    show notesLoop none [] _ = notesLoop none [] _
    rw [hframe "Notes" (by decide) (fun he => hne he.symm)]

/-- Counterexample to C8 as stated: the document `Notes\nArmor: 3` contains
an optional Notes section holding an attribute line; deleting the entire
section (here: the whole text) changes the attributes field as well, not
only the notes field. -/
theorem c8_counterexample :
    (parse "Notes\nArmor: 3").attributes.armor = some 3 ∧
    (parse "").attributes.armor = none ∧
    (parse "Notes\nArmor: 3").attributes ≠ (parse "").attributes :=
  ⟨by decide, by decide, by decide⟩

/-- Witness for C8 (amended): removing a trailing Notes block from a
concrete sheet leaves the skills and header fields untouched. -/
theorem c8_witness :
    (parseLines
        ["Zamira is a Weird Explorer who Crafts Illusions in a Historical world",
         "", "Skills", "Climbing (Trained)", "Notes", "some secret memory"]).skills
      = (parseLines
        ["Zamira is a Weird Explorer who Crafts Illusions in a Historical world",
         "", "Skills", "Climbing (Trained)"]).skills ∧
    (parseLines
        ["Zamira is a Weird Explorer who Crafts Illusions in a Historical world",
         "", "Skills", "Climbing (Trained)", "Notes", "some secret memory"]).header
      = (parseLines
        ["Zamira is a Weird Explorer who Crafts Illusions in a Historical world",
         "", "Skills", "Climbing (Trained)"]).header := by
  have h := c8_amended_section_independence
    ["Zamira is a Weird Explorer who Crafts Illusions in a Historical world",
     "", "Skills", "Climbing (Trained)"] ["some secret memory"] "Notes"
    (by decide) (by decide) (by decide) (by decide) (by decide)
  exact ⟨h.2.2.2.1 (by decide), h.1⟩

end CypherSheet
